import Mathlib

/-!
Verification of the arg-processor library: a shallow embedding of the
declaration-string parser (`ArgOpt`) and the argument scanner
(`ArgProcessor`) over `List Char` strings, together with theorems about
the behaviour of parsing, registry construction and the processing pass.

JavaScript strings are modelled as `List Char`; the `Record<string, ArgOpt>`
registry is modelled as an insertion-ordered association list keyed by the
long name (own enumerable string keys in insertion order); exceptions are
modelled with `Except` over an error type distinguishing the SyntaxError,
ReferenceError and TypeError kinds thrown by the source.
-/

namespace ArgProc

/-- JavaScript strings, modelled as lists of characters. -/
abbrev Str := List Char

/-- The kinds of exception the source code can raise: `SyntaxError`
(`synError` here), `ReferenceError` and `TypeError`, each carrying its
message string. -/
inductive JsError where
  | synError (msg : Str)
  | referenceError (msg : Str)
  | typeError (msg : Str)
deriving DecidableEq

/-- `true` for the characters matched by the JavaScript regex `[\w\d]`,
i.e. ASCII letters, digits and underscore. -/
def isWordChar (c : Char) : Bool := c.isAlphanum || c == '_'

/-- Surround a string with double quotes, as the template literals of the
source error messages do. -/
def quoteStr (s : Str) : Str := '"' :: (s ++ ['"'])

/-- Index of the first occurrence of a character, mirroring
`String.prototype.search` restricted to a single-character pattern
(`none` models the `-1` result). -/
def searchChar (t : Char) : Str → Option Nat
  | [] => none
  | c :: cs => if c = t then some 0 else (searchChar t cs).map (fun n => n + 1)

/-- Characters strictly before the first `'='`, mirroring
`str.substring(0, str.search("="))` when an `'='` is present (and the whole
string when it is not). -/
def beforeEq : Str → Str
  | [] => []
  | c :: cs => if c = '=' then [] else c :: beforeEq cs

/-- Characters strictly after the first `'='`, mirroring
`str.substring(str.search("=") + 1)`; `none` when no `'='` occurs. -/
def afterEq : Str → Option Str
  | [] => none
  | c :: cs => if c = '=' then some cs else afterEq cs

/-- Result object of `ArgOpt.parse`. -/
structure ParseResult where
  short : Str
  long : Str
  capture : Bool
  placeholder : Str
deriving DecidableEq

/-- Message of the SyntaxError for a non-word character:
`"${char}" in "${argOptStr}" is not right.` -/
def badCharMsg (c : Char) (orig : Str) : Str :=
  quoteStr [c] ++ (" in ").toList ++ quoteStr orig ++ (" is not right.").toList

/-- Message of the SyntaxError for a missing separator:
`"${argOptStr}" did not have separator ("/").` -/
def noSepMsg (orig : Str) : Str :=
  quoteStr orig ++ (" did not have separator (\x22/\x22).").toList

/-- Message of the SyntaxError for an empty long:
`"${argOptStr}" cannot have empty long.` -/
def emptyLongMsg (orig : Str) : Str :=
  quoteStr orig ++ (" cannot have empty long.").toList

/-- The character loop of `ArgOpt.parse`: a `'/'` switches accumulation
from `short` to `long` (via `split`) and is otherwise skipped; any other
character must be a word character, else a SyntaxError is raised; word
characters are appended to `short` or `long` according to `split`. -/
def parseLoop (orig : Str) : Str → Bool → Str → Str → Except JsError (Bool × Str × Str)
  | [], split, short, long => .ok (split, short, long)
  | c :: cs, split, short, long =>
    if c = '/' then parseLoop orig cs true short long
    else if isWordChar c then
      (if split then parseLoop orig cs split short (long ++ [c])
       else parseLoop orig cs split (short ++ [c]) long)
    else .error (.synError (badCharMsg c orig))

/-- Tail of `ArgOpt.parse` after the `'='` handling: run the character
loop, then fail when no separator was seen or the long is empty. -/
def parseTail (orig : Str) (capture : Bool) (placeholder : Str) (str : Str) :
    Except JsError ParseResult :=
  match parseLoop orig str false [] [] with
  | .error e => .error e
  | .ok (split, short, long) =>
    if split = false then .error (.synError (noSepMsg orig))
    else if long = [] then .error (.synError (emptyLongMsg orig))
    else .ok ⟨short, long, capture, placeholder⟩

/-- `ArgOpt.parse`: when the declaration contains an `'='` the text after
the first `'='` becomes the placeholder and `capture` is set, and only the
text before it is scanned; then the character loop and the final checks
run. -/
def ArgOpt.parse (argOptStr : Str) : Except JsError ParseResult :=
  match afterEq argOptStr with
  | some ph => parseTail argOptStr true ph (beforeEq argOptStr)
  | none => parseTail argOptStr false [] argOptStr

/-- The `ArgOpt` class: declaration fields `short`, `long`, `placeholder`,
`description`, `capture`, and the pass-transient fields `captured` and
`proc`. -/
structure ArgOpt where
  short : Str
  long : Str
  placeholder : Str := []
  description : Str := []
  capture : Bool := false
  captured : Str := []
  proc : Bool := false
deriving DecidableEq

/-- The `ArgOpt` constructor applied to an already-parsed declaration:
copies the parsed fields and the description, with transient state at its
defaults. -/
def ArgOpt.ofParse (r : ParseResult) (description : Str) : ArgOpt :=
  { short := r.short, long := r.long, placeholder := r.placeholder,
    description := description, capture := r.capture }

/-- `ArgOpt.toString`: renders `` `${short}/${long}${cap}${placeholder}` ``
where `cap` is `"="` exactly when `capture` is set. -/
def ArgOpt.toString (o : ArgOpt) : Str :=
  let cap : Str := if o.capture then ['='] else []
  o.short ++ ('/' :: o.long) ++ cap ++ o.placeholder

/-- The `ArgProcessor` class: the strict flag and the registry, the
latter an insertion-ordered association list keyed by long name. -/
structure ArgProcessor where
  strict : Bool := true
  opts : List (Str × ArgOpt) := []
deriving DecidableEq

/-- Association-list lookup, modelling `this.opts[k]` reads. -/
def recGet (m : List (Str × ArgOpt)) (k : Str) : Option ArgOpt :=
  match m with
  | [] => none
  | (k', v) :: rest => if k' = k then some v else recGet rest k

/-- Association-list assignment, modelling `this.opts[k] = v`: replaces in
place when the key exists, else appends at the end (JavaScript own-key
insertion order). -/
def recSet (m : List (Str × ArgOpt)) (k : Str) (v : ArgOpt) : List (Str × ArgOpt) :=
  match m with
  | [] => [(k, v)]
  | (k', v') :: rest => if k' = k then (k, v) :: rest else (k', v') :: recSet rest k v

/-- Association-list removal, modelling `delete this.opts[k]`. -/
def recDelete (m : List (Str × ArgOpt)) (k : Str) : List (Str × ArgOpt) :=
  match m with
  | [] => []
  | (k', v') :: rest => if k' = k then rest else (k', v') :: recDelete rest k

/-- Renders `opts[${i}]` for the constructor collision messages. -/
def optIdx (i : Nat) : Str :=
  ("opts[").toList ++ Nat.toDigits 10 i ++ ("]").toList

/-- Constructor message for a short collision between positions `i` and
`j`. -/
def shortCollMsg (o m : ArgOpt) (i j : Nat) : Str :=
  quoteStr o.toString ++ (" in ").toList ++ quoteStr (optIdx i) ++ (" and ").toList ++
    quoteStr m.toString ++ (" in ").toList ++ quoteStr (optIdx j) ++
    (" have an identical short.").toList

/-- Constructor message for a long collision between positions `i` and
`j`. -/
def longCollMsg (o m : ArgOpt) (i j : Nat) : Str :=
  quoteStr o.toString ++ (" in ").toList ++ quoteStr (optIdx i) ++ (" and ").toList ++
    quoteStr m.toString ++ (" in ").toList ++ quoteStr (optIdx j) ++
    (" have an identical long.").toList

/-- Inner loop of the `ArgProcessor` constructor: compare descriptor `o`
at position `i` against every other input descriptor, raising a
ReferenceError on an equal short or an equal long. -/
def ctorInner (o : ArgOpt) (i : Nat) : List (Nat × ArgOpt) → Except JsError Unit
  | [] => .ok ()
  | (j, m) :: rest =>
    if i = j then ctorInner o i rest
    else if o.short = m.short then .error (.referenceError (shortCollMsg o m i j))
    else if o.long = m.long then .error (.referenceError (longCollMsg o m i j))
    else ctorInner o i rest

/-- Outer loop of the `ArgProcessor` constructor: check each descriptor
against all of them, then assign it into the registry keyed by its long. -/
def ctorLoop (all : List (Nat × ArgOpt)) (acc : List (Str × ArgOpt)) :
    List (Nat × ArgOpt) → Except JsError (List (Str × ArgOpt))
  | [] => .ok acc
  | (i, o) :: rest =>
    match ctorInner o i all with
    | .error e => .error e
    | .ok _ => ctorLoop all (recSet acc o.long o) rest

/-- The `ArgProcessor` constructor (named `mk'` since `mk` is the
structure constructor): builds the registry from a descriptor list with
pairwise collision checking; `strict` defaults to `true`. -/
def ArgProcessor.mk' (opts : List ArgOpt) : Except JsError ArgProcessor :=
  match ctorLoop opts.enum [] opts.enum with
  | .error e => .error e
  | .ok m => .ok { strict := true, opts := m }

/-- `pushOpt` message: `${opt.toString()} and ${mopt.toString()} have the same short.` -/
def sameShortMsg (o m : ArgOpt) : Str :=
  o.toString ++ (" and ").toList ++ m.toString ++ (" have the same short.").toList

/-- Loop of `pushOpt`: raise a ReferenceError when any existing entry has
the same short but a different long. -/
def pushLoop (o : ArgOpt) : List (Str × ArgOpt) → Except JsError Unit
  | [] => .ok ()
  | (_, m) :: rest =>
    if o.short = m.short ∧ ¬(o.long = m.long) then
      .error (.referenceError (sameShortMsg o m))
    else pushLoop o rest

/-- `dropOpt`: remove one registry entry by long name, or all entries for
the wildcard `"*"`. -/
def ArgProcessor.dropOpt (p : ArgProcessor) (k : Str) : ArgProcessor :=
  if k = ['*'] then { p with opts := [] }
  else { p with opts := recDelete p.opts k }

/-- `pushOpt`: after the short-collision check, drop any entry with the
same long and insert the new descriptor. -/
def ArgProcessor.pushOpt (p : ArgProcessor) (opt : ArgOpt) : Except JsError ArgProcessor :=
  match pushLoop opt p.opts with
  | .error e => .error e
  | .ok _ => .ok { p with opts := recSet ((p.dropOpt opt.long).opts) opt.long opt }

/-- Resets one descriptor's transient fields, as `resetOpt` does per key:
`captured = ""`, `proc = false`. -/
def resetOne (o : ArgOpt) : ArgOpt := { o with captured := [], proc := false }

/-- `resetOpt` over a registry: reset every descriptor's transient
fields. -/
def resetMap (m : List (Str × ArgOpt)) : List (Str × ArgOpt) :=
  m.map (fun kv => (kv.1, resetOne kv.2))

/-- `ArgProcessor.resetOpt`. -/
def ArgProcessor.resetOpt (p : ArgProcessor) : ArgProcessor :=
  { p with opts := resetMap p.opts }

/-- Message of the ReferenceError for a capturing option without a value:
`must supply value for "${arg}".` -/
def mustSupplyMsg (arg : Str) : Str :=
  ("must supply value for ").toList ++ quoteStr arg ++ (".").toList

/-- Message of the ReferenceError for an unrecognized option under strict
mode: `Unrecognized option: "${arg}"` -/
def unrecMsg (arg : Str) : Str :=
  ("Unrecognized option: ").toList ++ quoteStr arg

/-- Sets `proc = true` on the registry entry with key `k`, modelling
`this.opts[keyOpt].proc = true`. -/
def setProc (m : List (Str × ArgOpt)) (k : Str) : List (Str × ArgOpt) :=
  m.map (fun kv => if kv.1 = k then (kv.1, { kv.2 with proc := true }) else kv)

/-- Sets `captured = v` on the registry entry with key `k`, modelling
`this.opts[keyOpt].captured = v`. -/
def setCaptured (m : List (Str × ArgOpt)) (k : Str) (v : Str) : List (Str × ArgOpt) :=
  m.map (fun kv => if kv.1 = k then (kv.1, { kv.2 with captured := v }) else kv)

/-- Token classification of the scan: `arg.startsWith("--")` strips two
dashes and flags long form, else `arg.startsWith("-")` strips one dash;
anything else yields an empty `optKey` (positional). Returns
`(optKey, long)`. -/
def classify (arg : Str) : Str × Bool :=
  match arg with
  | '-' :: '-' :: restChars => (restChars, true)
  | '-' :: restChars => (restChars, false)
  | _ => ([], false)

/-- Lookup key of an option token:
`optKey.substring(0, optKey.search("=")) || optKey` — the text before the
first `'='` when that text is non-empty, else the whole `optKey`. -/
def jsKey (optKey : Str) : Str :=
  let pre : Str :=
    match searchChar '=' optKey with
    | none => []
    | some i => optKey.take i
  if pre = [] then optKey else pre

/-- First registry entry matching the lookup key: the long name under a
double dash, the short name under a single dash, mirroring
`(long && key === argOpt.long) || (!long && key === argOpt.short)`. -/
def findOpt (lng : Bool) (key : Str) : List (Str × ArgOpt) → Option (Str × ArgOpt)
  | [] => none
  | (keyOpt, argOpt) :: rest =>
    if (lng = true ∧ key = argOpt.long) ∨ (lng = false ∧ key = argOpt.short) then
      some (keyOpt, argOpt)
    else findOpt lng key rest

/-- The token loop of `ArgProcessor.process`: one left-to-right pass with
the `captureNext`/`lastCapKey` lookahead state, accumulating the
positional tokens in `filtered` and mutating the registry entries'
transient fields. -/
def processLoop : Bool → List (Str × ArgOpt) → List Str → Bool → Str → List Str →
    Except JsError (List (Str × ArgOpt) × List Str)
  | _, opts, filtered, _, _, [] => .ok (opts, filtered)
  | strict, opts, filtered, captureNext, lastCapKey, arg :: rest =>
    if captureNext = true then
      processLoop strict (setCaptured opts lastCapKey arg) filtered false [] rest
    else
      let ck := classify arg
      if ck.1 = [] then
        processLoop strict opts (filtered ++ [arg]) false lastCapKey rest
      else
        match findOpt ck.2 (jsKey ck.1) opts with
        | none =>
          if strict = true then .error (.referenceError (unrecMsg arg))
          else processLoop strict opts (filtered ++ [arg]) false lastCapKey rest
        | some (keyOpt, argOpt) =>
          let opts1 := setProc opts keyOpt
          if argOpt.capture = true then
            match searchChar '=' ck.1 with
            | some i =>
              let val := ck.1.drop (i + 1)
              if val = [] then .error (.referenceError (mustSupplyMsg arg))
              else processLoop strict (setCaptured opts1 keyOpt val) filtered false lastCapKey rest
            | none =>
              match rest with
              | [] => .error (.referenceError (mustSupplyMsg arg))
              | _ :: _ => processLoop strict opts1 filtered true keyOpt rest
          else processLoop strict opts1 filtered false lastCapKey rest

/-- `ArgProcessor.process`: reset all transient state, then run the token
loop; on success the processor carries the mutated registry and the
positional tokens are returned. -/
def ArgProcessor.process (p : ArgProcessor) (args : List Str) :
    Except JsError (ArgProcessor × List Str) :=
  match processLoop p.strict (p.resetOpt).opts [] false [] args with
  | .error e => .error e
  | .ok (opts2, filtered) => .ok ({ p with opts := opts2 }, filtered)

/-- `ArgProcessor.proced`: reads `this.opts[long].proc`; on an unknown key
the indexing yields `undefined` and the `.proc` read raises a
TypeError. -/
def ArgProcessor.proced (p : ArgProcessor) (long : Str) : Except JsError Bool :=
  match recGet p.opts long with
  | some o => .ok o.proc
  | none =>
    .error (.typeError (("Cannot read properties of undefined (reading \x27proc\x27)").toList))

/-- `ArgProcessor.value`: reads `this.opts[long].captured`; on an unknown
key the indexing yields `undefined` and the `.captured` read raises a
TypeError. -/
def ArgProcessor.value (p : ArgProcessor) (long : Str) : Except JsError Str :=
  match recGet p.opts long with
  | some o => .ok o.captured
  | none =>
    .error (.typeError (("Cannot read properties of undefined (reading \x27captured\x27)").toList))

/-- `true` exactly on a ReferenceError-kind failure. -/
def isRefError {α : Type} : Except JsError α → Bool
  | .error (.referenceError _) => true
  | _ => false

/-- `true` exactly on a TypeError-kind failure. -/
def isTypeError {α : Type} : Except JsError α → Bool
  | .error (.typeError _) => true
  | _ => false

/-- Capturing descriptor `i/input`, as registered in the spec examples. -/
def inputOpt : ArgOpt := { short := ['i'], long := ("input").toList, capture := true }

/-- Non-capturing descriptor `h/help`, as registered in the spec examples. -/
def helpOpt : ArgOpt := { short := ['h'], long := ("help").toList }

/-- Registry holding only `i/input`, strict mode. -/
def pIn : ArgProcessor := { strict := true, opts := [(("input").toList, inputOpt)] }

/-- Registry holding `h/help` and `i/input`, strict mode. -/
def pHI : ArgProcessor :=
  { strict := true, opts := [(("help").toList, helpOpt), (("input").toList, inputOpt)] }

/-- Registry holding `h/help` and `i/input`, lenient mode. -/
def pHILenient : ArgProcessor :=
  { strict := false, opts := [(("help").toList, helpOpt), (("input").toList, inputOpt)] }

/-- The `i/input` descriptor after a pass that hit it with value
`img.png`. -/
def inputOptHit : ArgOpt :=
  { short := ['i'], long := ("input").toList, capture := true,
    captured := ("img.png").toList, proc := true }

/-- The state of `pIn` after processing `["app", "-i", "img.png"]`. -/
def pInAfter : ArgProcessor := { strict := true, opts := [(("input").toList, inputOptHit)] }

end ArgProc

namespace ArgProc

/-! ### Helper lemmas about the declaration parser -/

theorem word_ne_eqChar {c : Char} (h : isWordChar c = true) : c ≠ '=' := by
  intro he
  subst he
  exact absurd h (by decide)

theorem word_ne_slash {c : Char} (h : isWordChar c = true) : c ≠ '/' := by
  intro he
  subst he
  exact absurd h (by decide)

theorem afterEq_none (xs : Str) (h : ∀ c ∈ xs, c ≠ '=') : afterEq xs = none := by
  induction xs with
  | nil => rfl
  | cons c cs ih =>
    simp only [afterEq, if_neg (h c (List.mem_cons_self c cs))]
    exact ih (fun x hx => h x (List.mem_cons_of_mem c hx))

theorem afterEq_append (xs ys : Str) (h : ∀ c ∈ xs, c ≠ '=') :
    afterEq (xs ++ '=' :: ys) = some ys := by
  induction xs with
  | nil => simp [afterEq]
  | cons c cs ih =>
    simp only [List.cons_append, afterEq, if_neg (h c (List.mem_cons_self c cs))]
    exact ih (fun x hx => h x (List.mem_cons_of_mem c hx))

theorem beforeEq_append (xs ys : Str) (h : ∀ c ∈ xs, c ≠ '=') :
    beforeEq (xs ++ '=' :: ys) = xs := by
  induction xs with
  | nil => simp [beforeEq]
  | cons c cs ih =>
    simp only [List.cons_append, beforeEq, if_neg (h c (List.mem_cons_self c cs))]
    exact congrArg (c :: ·) (ih (fun x hx => h x (List.mem_cons_of_mem c hx)))

theorem parseLoop_slash (orig rest : Str) (split : Bool) (sh lg : Str) :
    parseLoop orig ('/' :: rest) split sh lg = parseLoop orig rest true sh lg := by
  simp [parseLoop]

theorem parseLoop_words_false (xs : Str) (h : ∀ c ∈ xs, isWordChar c = true)
    (orig rest : Str) (sh lg : Str) :
    parseLoop orig (xs ++ rest) false sh lg = parseLoop orig rest false (sh ++ xs) lg := by
  induction xs generalizing sh with
  | nil => simp
  | cons c cs ih =>
    have hc : isWordChar c = true := h c (List.mem_cons_self c cs)
    have hcs : ∀ x ∈ cs, isWordChar x = true := fun x hx => h x (List.mem_cons_of_mem c hx)
    rw [List.cons_append]
    simp only [parseLoop, if_neg (word_ne_slash hc), hc, if_true]
    rw [ih hcs (sh ++ [c])]
    simp

theorem parseLoop_words_true (xs : Str) (h : ∀ c ∈ xs, isWordChar c = true)
    (orig rest : Str) (sh lg : Str) :
    parseLoop orig (xs ++ rest) true sh lg = parseLoop orig rest true sh (lg ++ xs) := by
  induction xs generalizing lg with
  | nil => simp
  | cons c cs ih =>
    have hc : isWordChar c = true := h c (List.mem_cons_self c cs)
    have hcs : ∀ x ∈ cs, isWordChar x = true := fun x hx => h x (List.mem_cons_of_mem c hx)
    rw [List.cons_append]
    simp only [parseLoop, if_neg (word_ne_slash hc), hc, if_true]
    rw [ih hcs (lg ++ [c])]
    simp

theorem parseLoop_canonical (orig sh lg : Str)
    (hsh : ∀ c ∈ sh, isWordChar c = true) (hlg : ∀ c ∈ lg, isWordChar c = true) :
    parseLoop orig (sh ++ '/' :: lg) false [] [] = .ok (true, sh, lg) := by
  rw [parseLoop_words_false sh hsh orig ('/' :: lg) [] []]
  rw [parseLoop_slash]
  have h := parseLoop_words_true lg hlg orig [] sh []
  simpa using h

end ArgProc

namespace ArgProc

theorem parseLoop_ok_words (cs : Str) :
    ∀ (orig : Str) (split : Bool) (sh lg : Str) (sp : Bool) (sh' lg' : Str),
      parseLoop orig cs split sh lg = .ok (sp, sh', lg') →
      (∀ c ∈ sh, isWordChar c = true) → (∀ c ∈ lg, isWordChar c = true) →
      (∀ c ∈ sh', isWordChar c = true) ∧ (∀ c ∈ lg', isWordChar c = true) := by
  induction cs with
  | nil =>
    intro orig split sh lg sp sh' lg' h hs hl
    simp only [parseLoop, Except.ok.injEq, Prod.mk.injEq] at h
    obtain ⟨-, rfl, rfl⟩ := h
    exact ⟨hs, hl⟩
  | cons c cs ih =>
    intro orig split sh lg sp sh' lg' h hs hl
    simp only [parseLoop] at h
    by_cases hc : c = '/'
    · rw [if_pos hc] at h
      exact ih orig true sh lg sp sh' lg' h hs hl
    · rw [if_neg hc] at h
      by_cases hw : isWordChar c = true
      · rw [hw] at h
        simp only [if_true] at h
        cases split with
        | false =>
          simp only [Bool.false_eq_true, if_false] at h
          refine ih orig false (sh ++ [c]) lg sp sh' lg' h ?_ hl
          intro x hx
          rcases List.mem_append.mp hx with hx | hx
          · exact hs x hx
          · rw [List.mem_singleton.mp hx]; exact hw
        | true =>
          simp only [if_true] at h
          refine ih orig true sh (lg ++ [c]) sp sh' lg' h hs ?_
          intro x hx
          rcases List.mem_append.mp hx with hx | hx
          · exact hl x hx
          · rw [List.mem_singleton.mp hx]; exact hw
      · rw [Bool.not_eq_true] at hw
        rw [hw] at h
        simp only [Bool.false_eq_true, if_false] at h
        exact Except.noConfusion h

theorem parseTail_ok (orig : Str) (cap : Bool) (ph str : Str) (r : ParseResult)
    (h : parseTail orig cap ph str = .ok r) :
    (∀ c ∈ r.short, isWordChar c = true) ∧ (∀ c ∈ r.long, isWordChar c = true) ∧
      r.long ≠ [] ∧ r.capture = cap ∧ r.placeholder = ph := by
  unfold parseTail at h
  split at h
  · exact Except.noConfusion h
  · rename_i sp sh lg heq
    split at h
    · exact Except.noConfusion h
    · split at h
      · exact Except.noConfusion h
      · rename_i hsp hlg
        have hw := parseLoop_ok_words str orig false [] [] sp sh lg heq
          (by intro x hx; cases hx) (by intro x hx; cases hx)
        injection h with h'
        subst h'
        exact ⟨hw.1, hw.2, hlg, rfl, rfl⟩

theorem parse_ok_inv (s : Str) (r : ParseResult) (h : ArgOpt.parse s = .ok r) :
    (∀ c ∈ r.short, isWordChar c = true) ∧ (∀ c ∈ r.long, isWordChar c = true) ∧
      r.long ≠ [] ∧ (r.capture = false → r.placeholder = []) := by
  unfold ArgOpt.parse at h
  cases hA : afterEq s with
  | some ph =>
    rw [hA] at h
    obtain ⟨h1, h2, h3, h4, -⟩ := parseTail_ok s true ph (beforeEq s) r h
    refine ⟨h1, h2, h3, fun hc => ?_⟩
    rw [h4] at hc
    exact absurd hc (by decide)
  | none =>
    rw [hA] at h
    obtain ⟨h1, h2, h3, -, h5⟩ := parseTail_ok s false [] s r h
    exact ⟨h1, h2, h3, fun _ => h5⟩

theorem parse_canonical (sh lg ph : Str) (cap : Bool)
    (hsh : ∀ c ∈ sh, isWordChar c = true) (hlg : ∀ c ∈ lg, isWordChar c = true)
    (hlg0 : lg ≠ []) :
    ArgOpt.parse (sh ++ '/' :: lg ++ (if cap then '=' :: ph else [])) =
      .ok ⟨sh, lg, cap, if cap then ph else []⟩ := by
  have hne : ∀ c ∈ sh ++ '/' :: lg, c ≠ '=' := by
    intro c hc
    rcases List.mem_append.mp hc with h | h
    · exact word_ne_eqChar (hsh c h)
    · rcases List.mem_cons.mp h with h | h
      · subst h; decide
      · exact word_ne_eqChar (hlg c h)
  cases cap with
  | false =>
    simp only [Bool.false_eq_true, if_false, List.append_nil]
    unfold ArgOpt.parse
    rw [afterEq_none _ hne]
    unfold parseTail
    rw [parseLoop_canonical _ sh lg hsh hlg]
    simp [hlg0]
  | true =>
    simp only [if_true]
    unfold ArgOpt.parse
    rw [afterEq_append _ _ hne, beforeEq_append _ _ hne]
    unfold parseTail
    rw [parseLoop_canonical _ sh lg hsh hlg]
    simp [hlg0]

end ArgProc

namespace ArgProc

/-- C2 counterexample: the declaration string `"a/b/c"` has two `'/'`
characters before any `'='`, yet `ArgOpt.parse` succeeds (with short
`"a"` and long `"bc"`) instead of failing with a SyntaxError-kind
failure, refuting the claim that more than one separator fails. -/
theorem c2_two_separators_parse_ok :
    ArgOpt.parse (("a/b/c").toList) = .ok ⟨['a'], ['b', 'c'], false, []⟩ := rfl

/-- C2 (amended): a second `'/'` in a declaration is not an error: every
`'/'` merely (re)activates the long side and is itself skipped, so a
declaration made of word characters with two separators parses
successfully, the long being the concatenation of the segments after the
first `'/'`. -/
theorem c2_extra_separator_skipped (w x y : Str)
    (hw : ∀ c ∈ w, isWordChar c = true) (hx : ∀ c ∈ x, isWordChar c = true)
    (hy : ∀ c ∈ y, isWordChar c = true) (hne : x ++ y ≠ []) :
    ArgOpt.parse (w ++ '/' :: x ++ '/' :: y) = .ok ⟨w, x ++ y, false, []⟩ := by
  have hnoeq : ∀ c ∈ w ++ '/' :: x ++ '/' :: y, c ≠ '=' := by
    intro c hc
    rcases List.mem_append.mp hc with hc | bc
    · rcases List.mem_append.mp hc with hc | hc
      · exact word_ne_eqChar (hw c hc)
      · rcases List.mem_cons.mp hc with hc | hc
        · subst hc; decide
        · exact word_ne_eqChar (hx c hc)
    · rcases List.mem_cons.mp bc with hc | hc
      · subst hc; decide
      · exact word_ne_eqChar (hy c hc)
  unfold ArgOpt.parse
  rw [afterEq_none _ hnoeq]
  unfold parseTail
  rw [List.append_assoc, List.cons_append]
  rw [parseLoop_words_false w hw _ ('/' :: (x ++ '/' :: y)) [] []]
  rw [parseLoop_slash]
  rw [parseLoop_words_true x hx _ ('/' :: y) ([] ++ w) []]
  rw [parseLoop_slash]
  have hy' := parseLoop_words_true y hy (w ++ '/' :: (x ++ '/' :: y)) [] ([] ++ w) ([] ++ x)
  rw [List.append_nil] at hy'
  rw [hy']
  simp only [parseLoop, List.nil_append]
  simp [hne]

/-- C7 (confirmed): round-trip law — for every descriptor produced by
`ArgOpt.parse` from a valid declaration string, `toString` renders the
canonical form `short ++ "/" ++ long`, with `"=" ++ placeholder` appended
exactly when `capture` is true, and parsing that rendered string yields
back the same `short`, `long`, `capture` and `placeholder` fields. -/
theorem c7_roundtrip (s : Str) (r : ParseResult) (h : ArgOpt.parse s = .ok r) :
    (ArgOpt.ofParse r []).toString =
      r.short ++ '/' :: r.long ++ (if r.capture then '=' :: r.placeholder else []) ∧
    ArgOpt.parse ((ArgOpt.ofParse r []).toString) = .ok r := by
  obtain ⟨hs, hl, hl0, hph⟩ := parse_ok_inv s r h
  obtain ⟨rs, rl, rc, rp⟩ := r
  simp only [ArgOpt.ofParse, ArgOpt.toString] at hs hl hl0 hph ⊢
  cases rc with
  | false =>
    have hrp : rp = [] := hph rfl
    subst hrp
    constructor
    · simp
    · have hc := parse_canonical rs rl [] false hs hl hl0
      simpa using hc
  | true =>
    constructor
    · simp
    · have hc := parse_canonical rs rl rp true hs hl hl0
      simpa using hc

/-- C7 witness: the round-trip law applied to the concrete declaration
`"i/input=FILE"`. -/
theorem c7_roundtrip_witness :
    ArgOpt.parse (("i/input=FILE").toList) =
      .ok ⟨['i'], ("input").toList, true, ("FILE").toList⟩ ∧
    (ArgOpt.ofParse ⟨['i'], ("input").toList, true, ("FILE").toList⟩ []).toString =
      ['i'] ++ '/' :: ("input").toList ++
        (if true then '=' :: ("FILE").toList else []) ∧
    ArgOpt.parse ((ArgOpt.ofParse ⟨['i'], ("input").toList, true, ("FILE").toList⟩
        []).toString) = .ok ⟨['i'], ("input").toList, true, ("FILE").toList⟩ :=
  ⟨rfl,
    (c7_roundtrip (("i/input=FILE").toList) _ rfl).1,
    (c7_roundtrip (("i/input=FILE").toList) _ rfl).2⟩

end ArgProc

namespace ArgProc

/-! ### Helper lemmas about the processing pass -/

theorem resetOne_resetOne (o : ArgOpt) : resetOne (resetOne o) = resetOne o := rfl

theorem resetMap_resetMap (m : List (Str × ArgOpt)) : resetMap (resetMap m) = resetMap m := by
  induction m with
  | nil => rfl
  | cons kv rest ih =>
    simp only [resetMap, List.map_cons] at ih ⊢
    rw [ih]
    rfl

theorem resetMap_setProc (m : List (Str × ArgOpt)) (k : Str) :
    resetMap (setProc m k) = resetMap m := by
  induction m with
  | nil => rfl
  | cons kv rest ih =>
    obtain ⟨k1, v1⟩ := kv
    simp only [resetMap, setProc, List.map_cons] at ih ⊢
    rw [ih]
    by_cases h : k1 = k
    · rw [if_pos h]; rfl
    · rw [if_neg h]

theorem resetMap_setCaptured (m : List (Str × ArgOpt)) (k v : Str) :
    resetMap (setCaptured m k v) = resetMap m := by
  induction m with
  | nil => rfl
  | cons kv rest ih =>
    obtain ⟨k1, v1⟩ := kv
    simp only [resetMap, setCaptured, List.map_cons] at ih ⊢
    rw [ih]
    by_cases h : k1 = k
    · rw [if_pos h]; rfl
    · rw [if_neg h]

theorem processLoop_reset (strict : Bool) (args : List Str) :
    ∀ (opts : List (Str × ArgOpt)) (filtered : List Str) (cn : Bool) (lk : Str)
      (opts' : List (Str × ArgOpt)) (out : List Str),
      processLoop strict opts filtered cn lk args = .ok (opts', out) →
      resetMap opts' = resetMap opts := by
  induction args with
  | nil =>
    intro opts filtered cn lk opts' out h
    simp only [processLoop, Except.ok.injEq, Prod.mk.injEq] at h
    obtain ⟨rfl, rfl⟩ := h
    rfl
  | cons arg rest ih =>
    intro opts filtered cn lk opts' out h
    simp only [processLoop] at h
    split at h
    · rw [ih _ _ _ _ _ _ h, resetMap_setCaptured]
    · split at h
      · exact ih _ _ _ _ _ _ h
      · split at h
        · split at h
          · exact Except.noConfusion h
          · exact ih _ _ _ _ _ _ h
        · rename_i keyOpt argOpt heq
          split at h
          · split at h
            · split at h
              · exact Except.noConfusion h
              · rw [ih _ _ _ _ _ _ h, resetMap_setCaptured, resetMap_setProc]
            · split at h
              · exact Except.noConfusion h
              · rw [ih _ _ _ _ _ _ h, resetMap_setProc]
          · rw [ih _ _ _ _ _ _ h, resetMap_setProc]

end ArgProc

namespace ArgProc

/-- Unfolding of `ArgProcessor.process` through `resetMap`. -/
theorem process_eq (p : ArgProcessor) (args : List Str) :
    p.process args =
      match processLoop p.strict (resetMap p.opts) [] false [] args with
      | .error e => .error e
      | .ok (opts2, filtered) => .ok ({ p with opts := opts2 }, filtered) := rfl

/-- C8 (confirmed): processing is idempotent in its observable outcome — a
successful pass leaves the processor in a state from which processing the
same token sequence again succeeds with the identical registry state and
the identical positional output, because every descriptor's transient
state is reset at the start of each pass. -/
theorem c8_process_idempotent (p p₁ : ArgProcessor) (args out : List Str)
    (h : p.process args = .ok (p₁, out)) : p₁.process args = .ok (p₁, out) := by
  rw [process_eq] at h
  cases hL : processLoop p.strict (resetMap p.opts) [] false [] args with
  | error e =>
    rw [hL] at h
    exact Except.noConfusion h
  | ok r =>
    obtain ⟨o2, f⟩ := r
    rw [hL] at h
    simp only [Except.ok.injEq, Prod.mk.injEq] at h
    obtain ⟨h1, rfl⟩ := h
    subst h1
    rw [process_eq]
    have hs : ({ p with opts := o2 } : ArgProcessor).strict = p.strict := rfl
    have ho : ({ p with opts := o2 } : ArgProcessor).opts = o2 := rfl
    rw [hs, ho]
    have hreset : resetMap o2 = resetMap p.opts := by
      have h5 := processLoop_reset p.strict args (resetMap p.opts) [] false [] o2 f hL
      rw [h5, resetMap_resetMap]
    rw [hreset, hL]

/-- C8 witness: idempotence applied to the `i/input` registry on
`["app", "-i", "img.png"]`. -/
theorem c8_process_idempotent_witness :
    pIn.process [("app").toList, ("-i").toList, ("img.png").toList] =
      .ok (pInAfter, [("app").toList]) ∧
    pInAfter.process [("app").toList, ("-i").toList, ("img.png").toList] =
      .ok (pInAfter, [("app").toList]) :=
  ⟨rfl, c8_process_idempotent pIn pInAfter _ _ rfl⟩

theorem pushLoop_error_of_mem (o : ArgOpt) (m : List (Str × ArgOpt))
    (h : ∃ kv ∈ m, kv.2.short = o.short ∧ kv.2.long ≠ o.long) :
    ∃ msg, pushLoop o m = .error (.referenceError msg) := by
  induction m with
  | nil =>
    obtain ⟨kv, hkv, -⟩ := h
    exact absurd hkv (List.not_mem_nil kv)
  | cons kv rest ih =>
    obtain ⟨k1, v1⟩ := kv
    by_cases hc : o.short = v1.short ∧ ¬(o.long = v1.long)
    · exact ⟨sameShortMsg o v1, by simp only [pushLoop, if_pos hc]⟩
    · have hrec : pushLoop o ((k1, v1) :: rest) = pushLoop o rest := by
        simp only [pushLoop, if_neg hc]
      rw [hrec]
      apply ih
      obtain ⟨kw, hkw, h1, h2⟩ := h
      rcases List.mem_cons.mp hkw with he | hmem
      · exfalso
        apply hc
        subst he
        exact ⟨h1.symm, fun hl => h2 hl.symm⟩
      · exact ⟨kw, hmem, h1, h2⟩

/-- C3 counterexample: two descriptors with different longs that both have
an empty short are rejected — the bulk constructor and `pushOpt` both fail
with a ReferenceError-kind failure although the claim says they must
succeed when both shorts are empty. -/
theorem c3_empty_short_collision_rejected :
    isRefError (ArgProcessor.mk' [{ short := [], long := ("help").toList },
      { short := [], long := ("halt").toList }]) = true ∧
    isRefError (ArgProcessor.pushOpt
      { strict := true,
        opts := [(("help").toList, { short := [], long := ("help").toList })] }
      { short := [], long := ("halt").toList }) = true := ⟨rfl, rfl⟩

/-- C3 (amended): a short collision is rejected whatever the shorts are —
construction from a descriptor list and `pushOpt` into an existing
registry fail with a ReferenceError-kind failure whenever two descriptors
with different longs share the same short, empty or not; the non-empty
qualification in the claim does not hold. -/
theorem c3_short_collision_any (o₁ o₂ : ArgOpt)
    (hs : o₁.short = o₂.short) (hl : o₁.long ≠ o₂.long) :
    isRefError (ArgProcessor.mk' [o₁, o₂]) = true ∧
    ∀ p : ArgProcessor, (∃ kv ∈ p.opts, kv.2.short = o₁.short ∧ kv.2.long ≠ o₁.long) →
      isRefError (p.pushOpt o₁) = true := by
  constructor
  · have hinner : ctorInner o₁ 0 [(0, o₁), (1, o₂)] =
        .error (.referenceError (shortCollMsg o₁ o₂ 0 1)) := by
      simp [ctorInner, hs]
    have houter : ArgProcessor.mk' [o₁, o₂] =
        .error (.referenceError (shortCollMsg o₁ o₂ 0 1)) := by
      unfold ArgProcessor.mk'
      have he : ([o₁, o₂] : List ArgOpt).enum = [(0, o₁), (1, o₂)] := rfl
      rw [he]
      simp only [ctorLoop, hinner]
    rw [houter]
    rfl
  · intro p hex
    obtain ⟨msg, hm⟩ := pushLoop_error_of_mem o₁ p.opts hex
    unfold ArgProcessor.pushOpt
    rw [hm]
    rfl

/-- Descriptor `s/alpha`, used to witness a short collision. -/
def optColA : ArgOpt := { short := ['s'], long := ("alpha").toList }

/-- Descriptor `s/beta`, used to witness a short collision. -/
def optColB : ArgOpt := { short := ['s'], long := ("beta").toList }

/-- Registry holding only `s/beta`. -/
def pColl : ArgProcessor := { strict := true, opts := [(("beta").toList, optColB)] }

/-- C3 witness: the amended collision law applied to `s/alpha` against
`s/beta`. -/
theorem c3_short_collision_any_witness :
    (optColA.short = optColB.short ∧ optColA.long ≠ optColB.long) ∧
    isRefError (ArgProcessor.mk' [optColA, optColB]) = true ∧
    isRefError (pColl.pushOpt optColA) = true :=
  ⟨⟨rfl, by decide⟩,
    (c3_short_collision_any optColA optColB rfl (by decide)).1,
    (c3_short_collision_any optColA optColB rfl (by decide)).2 pColl
      ⟨((("beta").toList), optColB), by decide, rfl, by decide⟩⟩

/-- C1 (code_bug): the post-pass query operations do not return the
documented `undefined` on an unknown long key — reading `.proc` or
`.captured` off the missing entry raises a TypeError-kind failure —
while for a registered key they do return the descriptor's hit flag and
captured string. -/
theorem c1_query_unknown_key :
    isTypeError (pIn.proced (("nope").toList)) = true ∧
    isTypeError (pIn.value (("nope").toList)) = true ∧
    pInAfter.proced (("input").toList) = .ok true ∧
    pInAfter.value (("input").toList) = .ok (("img.png").toList) :=
  ⟨rfl, rfl, rfl, rfl⟩

/-- C4 (confirmed): with capturing `i/input` registered, processing
`["app", "-i", "img.png"]` hits `input` with captured value `img.png`
and positional output `["app"]`; the inline form `["app", "-i=img.png"]`
gives the identical outcome; and the token following `-i` is consumed
whole as the value even when it looks like a flag (`--help` is captured,
not treated as an option or positional, and raises nothing under strict
mode). -/
theorem c4_capture_value_forms :
    pIn.process [("app").toList, ("-i").toList, ("img.png").toList] =
      .ok (pInAfter, [("app").toList]) ∧
    pIn.process [("app").toList, ("-i=img.png").toList] =
      .ok (pInAfter, [("app").toList]) ∧
    pIn.process [("app").toList, ("-i").toList, ("--help").toList] =
      .ok ({ strict := true,
             opts := [(("input").toList,
               { inputOpt with captured := ("--help").toList, proc := true })] },
           [("app").toList]) :=
  ⟨rfl, rfl, rfl⟩

/-- C5 (confirmed): for a matched capturing option a missing value fails
the pass with a ReferenceError-kind `must supply value` failure — both
when an inline `'='` is present with empty text after it, and when no
inline value is present and the option token is the last token. -/
theorem c5_missing_value_fails (strict : Bool) (opts : List (Str × ArgOpt))
    (filtered : List Str) (lk arg : Str) (rest : List Str) (keyOpt : Str)
    (argOpt : ArgOpt)
    (hk : (classify arg).1 ≠ [])
    (hf : findOpt (classify arg).2 (jsKey (classify arg).1) opts = some (keyOpt, argOpt))
    (hc : argOpt.capture = true)
    (hmiss : (searchChar '=' (classify arg).1).elim (rest = [])
        (fun i => (classify arg).1.drop (i + 1) = [])) :
    processLoop strict opts filtered false lk (arg :: rest) =
      .error (.referenceError (mustSupplyMsg arg)) := by
  cases hsearch : searchChar '=' (classify arg).1 with
  | none =>
    have hrest : rest = [] := by rw [hsearch] at hmiss; exact hmiss
    subst hrest
    simp [processLoop, hk, hf, hc, hsearch]
  | some i =>
    have hdrop : (classify arg).1.drop (i + 1) = [] := by rw [hsearch] at hmiss; exact hmiss
    simp [processLoop, hk, hf, hc, hsearch, hdrop]

/-- C5 witness: the missing-value failure applied to the trailing bare
`'='` token `-i=` against the `i/input` registry. -/
theorem c5_missing_value_fails_witness :
    ((classify (("-i=").toList)).1 ≠ [] ∧
      findOpt (classify (("-i=").toList)).2 (jsKey (classify (("-i=").toList)).1)
        pIn.opts = some ((("input").toList), inputOpt) ∧
      inputOpt.capture = true ∧
      (searchChar '=' (classify (("-i=").toList)).1).elim (([] : List Str) = [])
        (fun i => (classify (("-i=").toList)).1.drop (i + 1) = [])) ∧
    processLoop true pIn.opts [] false [] [("-i=").toList] =
      .error (.referenceError (mustSupplyMsg (("-i=").toList))) :=
  ⟨⟨by decide, rfl, rfl, rfl⟩,
    c5_missing_value_fails true pIn.opts [] [] (("-i=").toList) [] (("input").toList)
      inputOpt (by decide) rfl rfl rfl⟩

/-- C6 (confirmed): when an option-shaped token matches no registered
descriptor, the scan in strict mode fails with a ReferenceError-kind
failure naming the raw token, while in lenient mode it appends the raw
token verbatim (dashes included) to the positional output and continues
scanning. -/
theorem c6_unrecognized_mode (opts : List (Str × ArgOpt)) (filtered : List Str)
    (lk arg : Str) (rest : List Str)
    (hk : (classify arg).1 ≠ [])
    (hf : findOpt (classify arg).2 (jsKey (classify arg).1) opts = none) :
    processLoop true opts filtered false lk (arg :: rest) =
      .error (.referenceError (unrecMsg arg)) ∧
    processLoop false opts filtered false lk (arg :: rest) =
      processLoop false opts (filtered ++ [arg]) false lk rest := by
  constructor
  · simp [processLoop, hk, hf]
  · simp [processLoop, hk, hf]

/-- C6 witness: the unrecognized token `--nope` against the
`help`/`input` registry, in both modes, together with the resulting
top-level `process` outcomes. -/
theorem c6_unrecognized_mode_witness :
    ((classify (("--nope").toList)).1 ≠ [] ∧
      findOpt (classify (("--nope").toList)).2 (jsKey (classify (("--nope").toList)).1)
        pHI.opts = none) ∧
    processLoop true pHI.opts [("app").toList] false [] [("--nope").toList] =
      .error (.referenceError (unrecMsg (("--nope").toList))) ∧
    processLoop false pHI.opts [("app").toList] false [] [("--nope").toList] =
      processLoop false pHI.opts ([("app").toList] ++ [("--nope").toList]) false [] [] ∧
    pHI.process [("app").toList, ("--nope").toList] =
      .error (.referenceError (unrecMsg (("--nope").toList))) ∧
    pHILenient.process [("app").toList, ("--nope").toList] =
      .ok (pHILenient, [("app").toList, ("--nope").toList]) :=
  ⟨⟨by decide, rfl⟩,
    (c6_unrecognized_mode pHI.opts [("app").toList] [] (("--nope").toList) []
      (by decide) rfl).1,
    (c6_unrecognized_mode pHI.opts [("app").toList] [] (("--nope").toList) []
      (by decide) rfl).2,
    rfl, rfl⟩

/-- C9 (confirmed): `process` returns exactly the unmatched/positional
tokens in their original relative order — for non-capturing `h/help` and
capturing `i/input`, processing `["a", "--help", "b", "-i", "c", "d"]`
returns `["a", "b", "d"]` in that order (with `help` hit and `input`
capturing `c`). -/
theorem c9_positional_order :
    pHI.process [("a").toList, ("--help").toList, ("b").toList, ("-i").toList,
        ("c").toList, ("d").toList] =
      .ok ({ strict := true,
             opts := [(("help").toList, { helpOpt with proc := true }),
                      (("input").toList, { inputOpt with captured := ['c'], proc := true })] },
           [("a").toList, ("b").toList, ("d").toList]) := rfl

/-- C10 counterexample: with capturing `i/input` registered, processing
`["-i", "-"]` consumes the token `-` as the captured value of `input` —
the positional output is empty, so `-` is not appended to the positional
output as the claim states for every registry. -/
theorem c10_dash_consumed_as_value :
    pIn.process [("-i").toList, ['-']] =
      .ok ({ strict := true,
             opts := [(("input").toList,
               { inputOpt with captured := ['-'], proc := true })] },
           []) := rfl

/-- C10 (amended): a token exactly equal to `-` or `--` that is not
being consumed as the captured value of the immediately preceding
capturing option token is appended verbatim to the positional output and
the scan continues — for every registry (including one containing a
descriptor whose short is the empty string), in both modes, matching no
descriptor and raising no failure at that step. -/
theorem c10_dash_positional_step (strict : Bool) (opts : List (Str × ArgOpt))
    (filtered : List Str) (lk : Str) (rest : List Str) (t : Str)
    (h : t = ['-'] ∨ t = ['-', '-']) :
    processLoop strict opts filtered false lk (t :: rest) =
      processLoop strict opts (filtered ++ [t]) false lk rest := by
  rcases h with rfl | rfl <;> simp [processLoop, classify]

/-- C10 witness: the bare-dash step applied to `-` against a registry, on
a non-empty remainder. -/
theorem c10_dash_positional_step_witness :
    ((['-'] : Str) = ['-'] ∨ (['-'] : Str) = ['-', '-']) ∧
    processLoop true pIn.opts [] false [] [['-'], ("x").toList] =
      processLoop true pIn.opts ([] ++ [['-']]) false [] [("x").toList] :=
  ⟨Or.inl rfl,
    c10_dash_positional_step true pIn.opts [] [] [("x").toList] ['-'] (Or.inl rfl)⟩

end ArgProc

namespace ArgProc

/-- C2 witness: the amended extra-separator law applied to the concrete
declaration `x/y/z`. -/
theorem c2_extra_separator_skipped_witness :
    ((∀ c ∈ (['x'] : Str), isWordChar c = true) ∧
      (∀ c ∈ (['y'] : Str), isWordChar c = true) ∧
      (∀ c ∈ (['z'] : Str), isWordChar c = true) ∧
      (['y'] : Str) ++ ['z'] ≠ []) ∧
    ArgOpt.parse (['x'] ++ '/' :: ['y'] ++ '/' :: ['z']) =
      .ok ⟨['x'], ['y'] ++ ['z'], false, []⟩ :=
  ⟨⟨by decide, by decide, by decide, by decide⟩,
    c2_extra_separator_skipped ['x'] ['y'] ['z'] (by decide) (by decide) (by decide)
      (by decide)⟩

end ArgProc
